import Mathlib

/-!
Verification of the storage core of the session-sync extension
(src/utils.js and src/background.js): chunk codec, chunked save/load,
retry loops, retention/garbage collection, base64 glue around the
compressor, profile-save verification, and the two getMainDomain
implementations.

Stores are modelled as partial maps from string keys to stored values;
chrome.storage.(sync|local).set is an overwriting update, .get a lookup
(resolving with an object that lacks the key when absent, never
throwing), .remove a deletion.  JavaScript strings are modelled as
Lean strings or lists of characters; epoch milliseconds as Nat.
-/

namespace SessionSync

/-- A value held in a chrome.storage area, as the storage core uses them:
a raw (compressed / chunk) string, a utils.js chunk-metadata object
`{chunks, timestamp}` (written at `<key>_meta`), a background.js
chunk-metadata object `{isChunked: true, chunkCount, chunkKeys, timestamp}`,
or a profile object of which only the structurally significant fields
(cookie count, presence of page storage) are retained. -/
inductive SVal where
  | str : List Char → SVal
  | meta : Nat → Nat → SVal
  | cmeta : Nat → List String → Nat → SVal
  | prof : Nat → Bool → SVal
deriving DecidableEq

/-- A storage area: a partial map from keys to values. -/
def Store (α : Type) : Type := String → Option α

/-- chrome.storage set of a single key (overwrite-in-place). -/
def setK {α : Type} (st : Store α) (k : String) (v : α) : Store α :=
  fun q => if q = k then some v else st q

/-- Apply a list of writes in order (earlier writes first). -/
def applyWrites {α : Type} : Store α → List (String × α) → Store α
  | st, [] => st
  | st, kv :: ws => applyWrites (setK st kv.1 kv.2) ws

/-- The everywhere-empty storage area. -/
def emptyStore : Store SVal := fun _ => none

/-- Fuel-indexed body of the chunk split loop; with enough fuel
(at least the input length) it is the plain take/drop recursion. -/
def splitChunksGo {α : Type} (size : Nat) : Nat → List α → List (List α)
  | 0, _ => []
  | fuel + 1, l =>
      if size = 0 ∨ l.length = 0 then []
      else l.take size :: splitChunksGo size fuel (l.drop size)

/-- The chunk split loop shared by saveWithChunks (src/utils.js:141-143,
chunk size 8000) and saveWithChunking (src/background.js:747-749, chunk
size 7000): `for (let i = 0; i < s.length; i += size) push(s.slice(i, i+size))`.
The `size = 0` guard only makes the definition total; both call sites use a
positive constant size (the JS loop would not terminate at size 0). -/
def splitIntoChunks {α : Type} (size : Nat) (l : List α) : List (List α) :=
  splitChunksGo size l.length l

/-- Fragment key derived by saveWithChunks (src/utils.js:152). -/
def chunkKeyU (key : String) (i : Nat) : String :=
  key ++ "_chunk_" ++ toString i

/-- Metadata key used by saveWithChunks / loadFromChunks (src/utils.js:165,177). -/
def metaKeyU (key : String) : String :=
  key ++ "_meta"

/-- Chunk size of saveWithChunks (src/utils.js:137). -/
def chunkSizeU : Nat := 8000

/-- The ordered write sequence performed by a successful run of
saveWithChunks (src/utils.js:134-170): one set per fragment, in index
order, then the metadata entry `{chunks, timestamp}` at `<key>_meta`.
`compressed` is the output of compressData on the value being saved. -/
def saveWithChunksWrites (key : String) (compressed : List Char) (ts : Nat) :
    List (String × SVal) :=
  let chunks := splitIntoChunks chunkSizeU compressed
  ((List.range chunks.length).map
    (fun i => (chunkKeyU key i, SVal.str (chunks.getD i []))))
  ++ [(metaKeyU key, SVal.meta chunks.length ts)]

/-- loadFromChunks (src/utils.js:172-206), up to the final decompression:
read the metadata at `<key>_meta`; if it is absent (or a falsy value such
as the empty string) return null; otherwise read `<key>_chunk_i` for
`i < chunks` and join the results with `''`.  A missing fragment read
resolves to `undefined`, which `Array.prototype.join` renders as the
empty string, so the joined result silently skips missing fragments.
The returned characters are what the code then hands to decompressData.
A stored value that is an object other than the `{chunks, timestamp}`
metadata is truthy with an undefined `.chunks`, so the loop runs zero
times and the join is empty. -/
def loadFromChunksJoined (st : Store SVal) (key : String) : Option (List Char) :=
  match st (metaKeyU key) with
  | none => none
  | some (SVal.str c) => if c = [] then none else some []
  | some (SVal.meta n _) =>
      some (((List.range n).map (fun i =>
        match st (chunkKeyU key i) with
        | some (SVal.str c) => c
        | _ => [])).flatten)
  | some _ => some []

/-- Fragment key derived by saveWithChunking (src/background.js:756):
CHUNK_PREFIX + key + underscore + index. -/
def chunkKeyB (key : String) (i : Nat) : String :=
  "chunk_" ++ key ++ "_" ++ toString i

/-- CHUNK_SIZE of saveWithChunking (src/background.js:739). -/
def chunkSizeB : Nat := 7000

/-- The chunkKeys list accumulated by saveWithChunking (src/background.js:754-758)
for saving `stringified` (the JSON.stringify of the data) under `key`. -/
def saveWithChunkingChunkKeys (key : String) (stringified : List Char) : List String :=
  (List.range (splitIntoChunks chunkSizeB stringified).length).map (chunkKeyB key)

/-- The ordered write sequence performed by a successful run of
saveWithChunking (src/background.js:743-772): one sync set per fragment,
in index order, then the metadata entry
`{isChunked: true, chunkCount, chunkKeys, timestamp}` at `key` itself. -/
def saveWithChunkingWrites (key : String) (stringified : List Char) (ts : Nat) :
    List (String × SVal) :=
  let chunks := splitIntoChunks chunkSizeB stringified
  ((List.range chunks.length).map
    (fun i => (chunkKeyB key i, SVal.str (chunks.getD i []))))
  ++ [(key, SVal.cmeta chunks.length (saveWithChunkingChunkKeys key stringified) ts)]

/-- getChunkedData (src/background.js:775-789), up to the final JSON.parse:
if the metadata is not chunked it is returned as-is (left injection);
otherwise every key in `chunkKeys` is read from sync storage and the
results are joined with `''` (right injection carries the joined string,
to which JSON.parse is then applied).  A missing fragment read resolves
to `undefined`, which the join renders as the empty string; the function
has no absent/NotFound result at all once it is reached with metadata. -/
def getChunkedDataRes (st : Store SVal) (metadata : SVal) : Sum SVal (List Char) :=
  match metadata with
  | SVal.cmeta _ cks _ =>
      Sum.inr ((cks.map (fun ck =>
        match st ck with
        | some (SVal.str c) => c
        | _ => [])).flatten)
  | v => Sum.inl v

/-- Failure classes of the backing store (spec taxonomy, section 7). -/
inductive JsErr where
  | quotaExceeded
  | rateLimited
  | transient
  | other
deriving DecidableEq

/-- maxRetries of the fragment retry loops (src/utils.js:146,183). -/
def maxRetries : Nat := 3

/-- The retry loop around one fragment write (src/utils.js:148-160) and one
fragment read (src/utils.js:185-196):
`while (retries < maxRetries) { try { op; break } catch (e) { retries++;
if (retries === maxRetries) throw e; await sleep(100 * retries) } }`.
`out a` is the outcome of attempt `a` (none = success); the catch clause
is reached for every thrown error, with no inspection of its class.
Returns the number of attempts made, the list of backoff delays slept
(in ms, in order), and the error propagated if retries were exhausted.
`fuel` is `maxRetries - retries`, the number of attempts still allowed. -/
def retryLoop (out : Nat → Option JsErr) : Nat → Nat → Nat × List Nat × Option JsErr
  | _, 0 => (0, [], none)
  | r, fuel + 1 =>
      match out r with
      | none => (1, [], none)
      | some e =>
          if r + 1 = maxRetries then (1, [], some e)
          else
            let rest := retryLoop out (r + 1) fuel
            (rest.1 + 1, 100 * (r + 1) :: rest.2.1, rest.2.2)

/-- One fragment operation with retries, started with retries = 0. -/
def fragAttempt (out : Nat → Option JsErr) : Nat × List Nat × Option JsErr :=
  retryLoop out 0 maxRetries

/-- JavaScript String.prototype.startsWith: the second string's characters
are a prefix of the first string's. -/
def strStarts (s p : String) : Bool :=
  p.data.isPrefixOf s.data

/-- A sync-storage entry as cleanupStorage (src/background.js:792-839) sees
it: only the fields the sweep reads are retained.  A raw chunk string has
none of them (undefined fields are falsy in JS). -/
structure Entry where
  lastAccessed : Option Nat
  isChunked : Bool
  chunkKeys : Option (List String)
deriving DecidableEq

/-- A chunk-string entry: all swept fields undefined. -/
def strEntry : Entry := ⟨none, false, none⟩

/-- The sync storage snapshot `await chrome.storage.sync.get(null)` as an
association list in enumeration order; keys are unique (a JS object). -/
abbrev CStore : Type := List (String × Entry)

/-- maxAge of cleanupStorage: 30 days in milliseconds (src/background.js:797). -/
def maxAgeMs : Nat := 30 * 24 * 60 * 60 * 1000

/-- The age check of cleanupStorage (src/background.js:808):
`value.lastAccessed && (now - value.lastAccessed > maxAge)`; an absent or
zero lastAccessed is falsy, and the subtraction cannot go negative on the
evicting side (JS negative compare and Nat truncation agree here). -/
def isExpired (now : Nat) (v : Entry) : Bool :=
  match v.lastAccessed with
  | some t => t != 0 && decide (maxAgeMs < now - t)
  | none => false

/-- First pass of cleanupStorage (src/background.js:804-816): for every
`profile_`-prefixed key whose entry is expired, remove the key, and if it
`isChunked` and has a (truthy) chunkKeys array also remove every key it
lists. -/
def pass1Remove (st : CStore) (now : Nat) : List String :=
  st.flatMap (fun kv =>
    if strStarts kv.1 "profile_" && isExpired now kv.2 then
      kv.1 :: (if kv.2.isChunked && kv.2.chunkKeys.isSome then
                 kv.2.chunkKeys.getD [] else [])
    else [])

/-- The orphan check of the second pass (src/background.js:822-824): does
any `profile_`-prefixed entry of the snapshot list this chunk key in its
chunkKeys (regardless of its isChunked flag or its age)? -/
def referencedByAnyProfile (st : CStore) (k : String) : Bool :=
  st.any (fun kv => strStarts kv.1 "profile_" && (kv.2.chunkKeys.getD []).contains k)

/-- Second pass of cleanupStorage (src/background.js:819-830): every
`chunk_`-prefixed key of the snapshot that no profile entry references. -/
def pass2Remove (st : CStore) : List String :=
  st.filterMap (fun kv =>
    if strStarts kv.1 "chunk_" && !(referencedByAnyProfile st kv.1) then
      some kv.1 else none)

/-- The full removal list of one cleanupStorage sweep
(src/background.js:792-839); the single `chrome.storage.sync.remove`
call at the end deletes exactly the keys of this list. -/
def cleanupToRemove (st : CStore) (now : Nat) : List String :=
  pass1Remove st now ++ pass2Remove st

/-- Eviction condition of the sweep for one snapshot entry. -/
def evictedEntry (now : Nat) (kv : String × Entry) : Bool :=
  strStarts kv.1 "profile_" && isExpired now kv.2

/-- The deletion set exactly as the claim describes it: (pass 1) every
expired profile record together with the Fragment keys its metadata
references, then (pass 2) every Fragment-shaped key of the snapshot not
referenced by any surviving metadata entry's chunkKeys. -/
def claimDeleted (st : CStore) (now : Nat) (k : String) : Bool :=
  st.any (fun kv => evictedEntry now kv &&
    (kv.1 == k || (strStarts k "chunk_" && (kv.2.chunkKeys.getD []).contains k)))
  || (st.any (fun kv => kv.1 == k) && strStarts k "chunk_" &&
      !(st.any (fun kv => strStarts kv.1 "profile_" && !(isExpired now kv.2) &&
          (kv.2.chunkKeys.getD []).contains k)))

/-- Accumulator-passing body of jsSplit. -/
def jsSplitGo (sep : Char) (acc : List Char) : List Char → List String
  | [] => [String.mk acc.reverse]
  | c :: rest =>
      if c = sep then String.mk acc.reverse :: jsSplitGo sep [] rest
      else jsSplitGo sep (c :: acc) rest

/-- JavaScript String.prototype.split with a one-character separator, as
`domain.split('.')` uses it: every separator occurrence cuts, empty pieces
are kept, and the empty string yields one empty piece. -/
def jsSplit (sep : Char) (s : String) : List String :=
  jsSplitGo sep [] s.data

/-- specialTlds of getMainDomain in src/utils.js:213. -/
def specialTldsU : List String := ["co.uk", "com.au", "co.jp", "co.nz", "co.in"]

/-- specialTlds of getMainDomain in src/background.js:677. -/
def specialTldsB : List String := ["co.uk", "com.au", "co.jp", "co.nz"]

/-- getMainDomain as defined in src/utils.js:209-221. -/
def getMainDomainU (domain : String) : String :=
  let parts := jsSplit '.' domain
  if parts.length ≤ 2 then domain
  else
    let lastTwo := String.intercalate "." (parts.drop (parts.length - 2))
    if specialTldsU.contains lastTwo then
      String.intercalate "." (parts.drop (parts.length - 3))
    else lastTwo

/-- getMainDomain as defined in src/background.js:672-685. -/
def getMainDomainB (domain : String) : String :=
  let parts := jsSplit '.' domain
  if parts.length ≤ 2 then domain
  else
    let lastTwo := String.intercalate "." (parts.drop (parts.length - 2))
    if specialTldsB.contains lastTwo then
      String.intercalate "." (parts.drop (parts.length - 3))
    else lastTwo

/-- The base64 alphabet used by btoa/atob. -/
def b64Alphabet : List Char :=
  "ABCDEFGHIJKLMNOPQRSTUVWXYZabcdefghijklmnopqrstuvwxyz0123456789+/".data

/-- Sextet to base64 character. -/
def b64Char (n : Nat) : Char := b64Alphabet.getD n 'A'

/-- Base64 character back to its sextet. -/
def charIdx (c : Char) : Nat := b64Alphabet.indexOf c

/-- The byte-to-base64 step of compressData (src/utils.js:47):
`btoa(String.fromCharCode.apply(null, bytes))`, with each byte below 256
so that fromCharCode yields the code unit of that value and btoa encodes
it (btoa groups three code units into four characters, padding with `=`). -/
def encodeB64 : List Nat → List Char
  | [] => []
  | [a] => [b64Char (a / 4), b64Char (a % 4 * 16), '=', '=']
  | [a, b] => [b64Char (a / 4), b64Char (a % 4 * 16 + b / 16), b64Char (b % 16 * 4), '=']
  | a :: b :: d :: rest =>
      b64Char (a / 4) :: b64Char (a % 4 * 16 + b / 16) ::
      b64Char (b % 16 * 4 + d / 64) :: b64Char (d % 64) :: encodeB64 rest

/-- Regroup base64 sextets (padding already stripped) into bytes. -/
def sixToBytes : List Nat → List Nat
  | s1 :: s2 :: s3 :: s4 :: rest =>
      (s1 * 4 + s2 / 16) :: (s2 % 16 * 16 + s3 / 4) :: (s3 % 4 * 64 + s4) :: sixToBytes rest
  | [s1, s2] => [s1 * 4 + s2 / 16]
  | [s1, s2, s3] => [s1 * 4 + s2 / 16, s2 % 16 * 16 + s3 / 4]
  | _ => []

/-- The base64-to-byte step of decompressData (src/utils.js:67):
`atob(compressedData).split('').map(c => c.charCodeAt(0))`. -/
def decodeB64 (cs : List Char) : List Nat :=
  sixToBytes ((cs.filter (fun c => c != '=')).map charIdx)

/-- compressData (src/utils.js:31-63).  Modelled from the spec: the LZMA
worker (lib/lzma_worker.min.js, fetched from a CDN, not under src/) is
abstracted as `comp`, and the JSON.stringify/TextEncoder front end
(platform built-ins) as `ser`, per the section 4.1 contract; the
repository's own glue, `btoa(String.fromCharCode.apply(null, result))`,
is the concrete `encodeB64`. -/
def compressData {J : Type} (ser : J → List Nat) (comp : List Nat → List Nat)
    (v : J) : String :=
  String.mk (encodeB64 (comp (ser v)))

/-- decompressData (src/utils.js:65-94).  Modelled from the spec: the LZMA
worker's decompress is abstracted as `decomp` and the
TextDecoder/JSON.parse back end as `de` (returning none on a parse
failure), per the section 4.1 contract; the repository's own glue,
`atob(data).split('').map(c => c.charCodeAt(0))`, is the concrete
`decodeB64`. -/
def decompressData {J : Type} (de : List Nat → Option J) (decomp : List Nat → List Nat)
    (s : String) : Option J :=
  de (decomp (decodeB64 s.data))

/-- The structurally significant fields of a collected profile
(src/background.js:964-972): the number of retained essential cookies and
whether page storage was captured. -/
structure ProfileData where
  cookies : Nat
  hasPage : Bool
deriving DecidableEq

/-- The profile key `profile_<name>_<mainDomain>` (src/background.js:978,1040). -/
def profileKeyOf (name domain : String) : String :=
  "profile_" ++ name ++ "_" ++ getMainDomainB domain

/-- verifySaveSuccess (src/background.js:976-1009): read the profile back
from sync storage; absent data fails; a saved cookie count different from
the original fails (`savedData.cookies || []` makes the count of a
non-profile value 0); original page storage missing from the saved value
fails; otherwise the verification passes. -/
def verifySaveSuccess (sync : Store SVal) (name domain : String)
    (orig : ProfileData) : Bool :=
  match sync (profileKeyOf name domain) with
  | none => false
  | some v =>
      let savedCookies : Nat := match v with | SVal.prof c _ => c | _ => 0
      let savedHasPage : Bool := match v with | SVal.prof _ p => p | _ => false
      if savedCookies != orig.cookies then false
      else if orig.hasPage && !savedHasPage then false
      else true

/-- CHROME_SYNC_QUOTA_BYTES_PER_ITEM (src/background.js:689). -/
def quotaPerItem : Nat := 8192

/-- The effective saveProfileState: the second declaration at
src/background.js:1026-1079, which shadows the first declaration at
src/background.js:551-584 (in JS the later top-level function declaration
wins).  Success path: compress the collected data (`cp` is the compressor
output, abstracted as in compressData); if it exceeds the per-item quota,
chunk it into sync storage via saveWithChunks, otherwise write the
compressed string to local storage; then, unless the profile name is
already listed, update the `domain_profiles_<mainDomain>` list through
storageSet (src/utils.js:97-112: its own compressor output `cd`, chunked
when longer than 8000); finally return success — with no verification
read anywhere on the path.  Returns (success, sync store, local store). -/
def saveProfileState2 (sync loc : Store SVal) (name domain : String)
    (cp cd : List Char) (existingNames : List String) (ts : Nat) :
    Bool × Store SVal × Store SVal :=
  if name = "" ∨ domain = "" then (false, sync, loc)
  else
    let profileKey := profileKeyOf name domain
    let s1l1 : Store SVal × Store SVal :=
      if quotaPerItem < cp.length then
        (applyWrites sync (saveWithChunksWrites profileKey cp ts), loc)
      else (sync, setK loc profileKey (SVal.str cp))
    let domainKey := "domain_profiles_" ++ getMainDomainB domain
    let sync2 :=
      if existingNames.contains name then s1l1.1
      else if 8000 < cd.length then
        applyWrites s1l1.1 (saveWithChunksWrites domainKey cd ts)
      else setK s1l1.1 domainKey (SVal.str cd)
    (true, sync2, s1l1.2)

/-- A concrete store state for a chunked record with a missing fragment:
the metadata at `k_meta` records 2 chunks, fragment `k_chunk_0` holds "1",
fragment `k_chunk_1` is absent (e.g. the write of the second fragment
never happened). -/
def c1Store : Store SVal := fun k =>
  if k = "k_meta" then some (SVal.meta 2 0)
  else if k = "k_chunk_0" then some (SVal.str ['1'])
  else none

/-- A concrete store state holding a previously committed chunked version
of key "k": metadata records 3 chunks, fragments hold "x", "z", "w". -/
def c2PriorStore : Store SVal := fun k =>
  if k = "k_meta" then some (SVal.meta 3 0)
  else if k = "k_chunk_0" then some (SVal.str ['x'])
  else if k = "k_chunk_1" then some (SVal.str ['z'])
  else if k = "k_chunk_2" then some (SVal.str ['w'])
  else none

/-- A concrete sync snapshot for the GC sweep: an expired profile and a
fresh profile both reference the same fragment key. -/
def c5Store : CStore :=
  [("profile_old_a.com", ⟨some 1, true, some ["chunk_shared_0"]⟩),
   ("profile_new_a.com", ⟨some (maxAgeMs + 2), true, some ["chunk_shared_0"]⟩),
   ("chunk_shared_0", strEntry)]

/-- A sweep time at which profile_old_a.com is expired (lastAccessed 1)
and profile_new_a.com is not (lastAccessed maxAgeMs + 2). -/
def c5Now : Nat := maxAgeMs + maxAgeMs + 2

/-- A concrete sync snapshot with a live profile referencing its own
fragment and no sharing with any expired profile. -/
def c5LiveStore : CStore :=
  [("profile_p_a.com", ⟨some (maxAgeMs + 2), true, some ["chunk_live_0"]⟩),
   ("chunk_live_0", strEntry)]

theorem splitChunksGo_nil {α : Type} (s fuel : Nat) (l : List α) (hl : l.length = 0) :
    splitChunksGo s fuel l = [] := by
  cases fuel with
  | zero => rfl
  | succ fuel => simp [splitChunksGo, hl]

theorem splitChunksGo_irrel {α : Type} (s : Nat) :
    ∀ (fuel₁ fuel₂ : Nat) (l : List α), l.length ≤ fuel₁ → l.length ≤ fuel₂ →
      splitChunksGo s fuel₁ l = splitChunksGo s fuel₂ l := by
  intro fuel₁
  induction fuel₁ with
  | zero =>
      intro fuel₂ l h1 _
      rw [splitChunksGo_nil s 0 l (Nat.le_zero.mp h1),
          splitChunksGo_nil s fuel₂ l (Nat.le_zero.mp h1)]
  | succ fuel₁ ih =>
      intro fuel₂ l h1 h2
      cases fuel₂ with
      | zero =>
          rw [splitChunksGo_nil s _ l (Nat.le_zero.mp h2),
              splitChunksGo_nil s _ l (Nat.le_zero.mp h2)]
      | succ fuel₂ =>
          simp only [splitChunksGo]
          split

          · rfl
          · rename_i h
            simp only [not_or] at h
            have := ih fuel₂ (l.drop s)
              (by simp only [List.length_drop]; omega)
              (by simp only [List.length_drop]; omega)
            rw [this]

theorem splitChunksGo_flatten {α : Type} (s : Nat) (hs : 0 < s) :
    ∀ (fuel : Nat) (l : List α), l.length ≤ fuel →
      (splitChunksGo s fuel l).flatten = l := by
  intro fuel
  induction fuel with
  | zero =>
      intro l hl
      rw [splitChunksGo_nil s 0 l (Nat.le_zero.mp hl)]
      exact (List.length_eq_zero.mp (Nat.le_zero.mp hl)).symm
  | succ fuel ih =>
      intro l hl
      simp only [splitChunksGo]
      split
      · rename_i h
        rcases h with h | h
        · omega
        · exact (List.length_eq_zero.mp h).symm
      · rename_i h
        simp only [not_or] at h
        have hdrop : (l.drop s).length ≤ fuel := by
          simp only [List.length_drop]
          omega
        simp only [List.flatten_cons, ih (l.drop s) hdrop]
        exact List.take_append_drop s l

theorem splitChunksGo_dropLast {α : Type} (s : Nat) (hs : 0 < s) :
    ∀ (fuel : Nat) (l : List α), l.length ≤ fuel →
      ∀ f ∈ (splitChunksGo s fuel l).dropLast, f.length = s := by
  intro fuel
  induction fuel with
  | zero =>
      intro l hl
      rw [splitChunksGo_nil s 0 l (Nat.le_zero.mp hl)]
      simp
  | succ fuel ih =>
      intro l hl
      simp only [splitChunksGo]
      split
      · simp
      · rename_i h
        simp only [not_or] at h
        have hdrop : (l.drop s).length ≤ fuel := by
          simp only [List.length_drop]
          omega
        intro f hf
        rcases hrest : splitChunksGo s fuel (l.drop s) with _ | ⟨r, rs⟩
        · rw [hrest] at hf
          simp at hf
        · rw [hrest, List.dropLast_cons₂] at hf
          rcases List.mem_cons.mp hf with hf | hf
          · subst hf
            have hlen : s < l.length := by
              have hz : (l.drop s).length ≠ 0 := by
                intro hz
                rw [splitChunksGo_nil s fuel (l.drop s) hz] at hrest
                exact List.noConfusion hrest
              simp only [List.length_drop] at hz
              omega
            simp [List.length_take]
            omega
          · exact ih (l.drop s) hdrop f (by rw [hrest]; exact hf)

/-- C3: for every character string b and fragment size s > 0, the chunk
split produces fragments that rejoin to exactly b, every fragment except
possibly the last has length exactly s, and the empty input yields zero
fragments (not one empty fragment). -/
theorem splitIntoChunks_spec (s : Nat) (hs : 0 < s) (l : List Char) :
    (splitIntoChunks s l).flatten = l
    ∧ (∀ f ∈ (splitIntoChunks s l).dropLast, f.length = s)
    ∧ splitIntoChunks s ([] : List Char) = [] :=
  ⟨splitChunksGo_flatten s hs l.length l (Nat.le_refl _),
   splitChunksGo_dropLast s hs l.length l (Nat.le_refl _),
   rfl⟩

/-- Witness for C3 at s = 2 and b = "abcde". -/
theorem splitIntoChunks_spec_witness :
    0 < 2 ∧
    ((splitIntoChunks 2 "abcde".data).flatten = "abcde".data
     ∧ (∀ f ∈ (splitIntoChunks 2 "abcde".data).dropLast, f.length = 2)
     ∧ splitIntoChunks 2 ([] : List Char) = []) :=
  ⟨by decide, splitIntoChunks_spec 2 (by decide) "abcde".data⟩

theorem setK_self {α : Type} (st : Store α) (k : String) (v : α) :
    setK st k v k = some v := by
  simp [setK]

theorem setK_other {α : Type} (st : Store α) (k q : String) (v : α) (h : q ≠ k) :
    setK st k v q = st q := by
  simp [setK, h]

theorem applyWrites_of_not_mem {α : Type} :
    ∀ (ws : List (String × α)) (st : Store α) (k : String),
      (∀ kv ∈ ws, kv.1 ≠ k) → applyWrites st ws k = st k := by
  intro ws
  induction ws with
  | nil => intro st k _; rfl
  | cons w ws ih =>
      intro st k hk
      have h1 : w.1 ≠ k := hk w (List.mem_cons_self w ws)
      have h2 : ∀ kv ∈ ws, kv.1 ≠ k := fun kv hkv => hk kv (List.mem_cons_of_mem w hkv)
      show applyWrites (setK st w.1 w.2) ws k = st k
      rw [ih (setK st w.1 w.2) k h2, setK_other st w.1 k w.2 (fun he => h1 he.symm)]

theorem applyWrites_append {α : Type} :
    ∀ (ws vs : List (String × α)) (st : Store α),
      applyWrites st (ws ++ vs) = applyWrites (applyWrites st ws) vs := by
  intro ws
  induction ws with
  | nil => intro vs st; rfl
  | cons w ws ih =>
      intro vs st
      show applyWrites (setK st w.1 w.2) (ws ++ vs) = _
      rw [ih vs (setK st w.1 w.2)]
      rfl

theorem chunkKeyU_ne_metaKeyU (key : String) (i : Nat) :
    chunkKeyU key i ≠ metaKeyU key := by
  intro h
  unfold chunkKeyU metaKeyU at h
  rw [String.append_assoc] at h
  have hd := congrArg String.data h
  simp only [String.data_append] at hd
  have hd2 := List.append_cancel_left hd
  have hd3 : ('_' :: 'c' :: 'h' :: 'u' :: 'n' :: 'k' :: '_' :: []) ++ (toString i).data
      = ('_' :: 'm' :: 'e' :: 't' :: 'a' :: []) := hd2
  simp at hd3

/-- C2 (counterexample to the claim as stated): an interrupted partial
write is NOT always invisible to Load.  Over a store holding a previously
committed chunked version of the key (c2PriorStore: metadata records 3
chunks "x","z","w"), interrupting a re-save after its first fragment
write changes what Load returns: the reused fragment key k_chunk_0 now
holds the new version's "Q", and Load under the stale prior metadata
yields the mixed value "Qzw" — neither NotFound nor the old value, so
the partial write appears live. -/
theorem saveWithChunks_partial_visible :
    ¬ (∀ (key : String) (compressed : List Char) (ts : Nat) (st : Store SVal) (p : Nat),
        p < (saveWithChunksWrites key compressed ts).length →
        loadFromChunksJoined
            (applyWrites st ((saveWithChunksWrites key compressed ts).take p)) key
          = loadFromChunksJoined st key) :=
  fun h => absurd (h "k" "Q".data 1 c2PriorStore 1 (by decide)) (by decide)

/-- C2 (amended): a successful saveWithChunks emits its fragment writes
in strictly increasing index order with the metadata write last, and
applying any proper prefix of the write sequence never installs Metadata
for the new version (the entry at the metadata key is exactly what the
store held before the Save).  Consequently, when the key had no prior
chunked Metadata, the interrupted record is invisible to the chunked
load (it returns null, the NotFound outcome); but on a re-save over an
existing chunked commit the reused fragment keys make the partial write
visible to Load under the stale prior metadata, mixed with the prior
version's fragments. -/
theorem saveWithChunks_commit_order (key : String) (compressed : List Char) (ts : Nat)
    (st : Store SVal)
    (p : Nat) (hp : p < (saveWithChunksWrites key compressed ts).length) :
    ((saveWithChunksWrites key compressed ts).map Prod.fst
      = (List.range (splitIntoChunks chunkSizeU compressed).length).map (chunkKeyU key)
        ++ [metaKeyU key])
    ∧ applyWrites st ((saveWithChunksWrites key compressed ts).take p) (metaKeyU key)
        = st (metaKeyU key)
    ∧ (st (metaKeyU key) = none →
        loadFromChunksJoined
          (applyWrites st ((saveWithChunksWrites key compressed ts).take p)) key = none) := by
  have hple : p ≤ ((List.range (splitIntoChunks chunkSizeU compressed).length).map
      (fun i => (chunkKeyU key i,
        SVal.str ((splitIntoChunks chunkSizeU compressed).getD i [])))).length := by
    have hlen : (saveWithChunksWrites key compressed ts).length
        = (splitIntoChunks chunkSizeU compressed).length + 1 := by
      simp [saveWithChunksWrites]
    simp only [List.length_map, List.length_range]
    omega
  have htake : (saveWithChunksWrites key compressed ts).take p
      = ((List.range (splitIntoChunks chunkSizeU compressed).length).map
          (fun i => (chunkKeyU key i,
            SVal.str ((splitIntoChunks chunkSizeU compressed).getD i [])))).take p := by
    simp only [saveWithChunksWrites]
    exact List.take_append_of_le_length hple
  have hnk : ∀ kv ∈ (saveWithChunksWrites key compressed ts).take p,
      kv.1 ≠ metaKeyU key := by
    intro kv hkv
    rw [htake] at hkv
    have hkv2 := List.mem_of_mem_take hkv
    rcases List.mem_map.mp hkv2 with ⟨i, _, hi⟩
    rw [← hi]
    exact chunkKeyU_ne_metaKeyU key i
  have happ := applyWrites_of_not_mem ((saveWithChunksWrites key compressed ts).take p)
    st (metaKeyU key) hnk
  refine ⟨?_, happ, ?_⟩
  · simp [saveWithChunksWrites, List.map_map, Function.comp]
  · intro hmeta
    rw [loadFromChunksJoined, happ, hmeta]

/-- Witness for C2 (amended): saving one fragment over an empty store,
prefix of length 1 (the fragment written, the metadata not yet). -/
theorem saveWithChunks_commit_order_witness :
    (1 < (saveWithChunksWrites "k" "a".data 0).length
     ∧ emptyStore (metaKeyU "k") = none)
    ∧ ((saveWithChunksWrites "k" "a".data 0).map Prod.fst
        = (List.range (splitIntoChunks chunkSizeU "a".data).length).map (chunkKeyU "k")
          ++ [metaKeyU "k"])
    ∧ applyWrites emptyStore ((saveWithChunksWrites "k" "a".data 0).take 1) (metaKeyU "k")
        = emptyStore (metaKeyU "k")
    ∧ loadFromChunksJoined
        (applyWrites emptyStore ((saveWithChunksWrites "k" "a".data 0).take 1)) "k" = none :=
  ⟨⟨by decide, rfl⟩,
   (saveWithChunks_commit_order "k" "a".data 0 emptyStore 1 (by decide)).1,
   (saveWithChunks_commit_order "k" "a".data 0 emptyStore 1 (by decide)).2.1,
   (saveWithChunks_commit_order "k" "a".data 0 emptyStore 1 (by decide)).2.2 rfl⟩

/-- C1 (evaluation at the failing input): with chunked metadata recording
2 fragments and fragment `k_chunk_1` absent from the store, loadFromChunks
does not return null/NotFound — the missing fragment is joined as the
empty string and the partially reassembled text "1" (a strict prefix of
the original data) is handed on to decompression; getChunkedData behaves
the same on background.js metadata.  The claim requires NotFound. -/
theorem loadFromChunks_missing_fragment :
    c1Store (chunkKeyU "k" 1) = none
    ∧ loadFromChunksJoined c1Store "k" = some "1".data
    ∧ loadFromChunksJoined c1Store "k" ≠ none
    ∧ getChunkedDataRes c1Store (SVal.cmeta 2 ["k_chunk_0", "k_chunk_1"] 0)
        = Sum.inr "1".data := by
  refine ⟨by decide, by decide, by decide, by decide⟩

theorem retryLoop_le {out : Nat → Option JsErr} :
    ∀ (fuel r : Nat), (retryLoop out r fuel).1 ≤ fuel := by
  intro fuel
  induction fuel with
  | zero => intro r; exact Nat.le_refl 0
  | succ fuel ih =>
      intro r
      simp only [retryLoop]
      cases out r with
      | none => exact Nat.succ_le_succ (Nat.zero_le fuel)
      | some e =>
          by_cases hr : r + 1 = maxRetries
          · simp only [if_pos hr]
            exact Nat.succ_le_succ (Nat.zero_le fuel)
          · simp only [if_neg hr]
            exact Nat.succ_le_succ (ih (r + 1))

theorem retryLoop_pos (out : Nat → Option JsErr) (fuel r : Nat) :
    1 ≤ (retryLoop out r (fuel + 1)).1 := by
  simp only [retryLoop]
  cases out r with
  | none => exact Nat.le_refl 1
  | some e =>
      by_cases hr : r + 1 = maxRetries
      · simp only [if_pos hr]
        exact Nat.le_refl 1
      · simp only [if_neg hr]
        exact Nat.succ_le_succ (Nat.zero_le _)

theorem retryLoop_delays (out : Nat → Option JsErr) :
    ∀ (fuel r : Nat), r + fuel = maxRetries →
      (retryLoop out r fuel).2.1
        = (List.range ((retryLoop out r fuel).1 - 1)).map (fun j => 100 * (r + j + 1)) := by
  intro fuel
  induction fuel with
  | zero => intro r _; rfl
  | succ fuel ih =>
      intro r hinv
      simp only [retryLoop]
      cases out r with
      | none => rfl
      | some e =>
          by_cases hr : r + 1 = maxRetries
          · simp [if_pos hr]
          · simp only [if_neg hr]
            cases fuel with
            | zero =>
                exfalso
                simp only [maxRetries] at hinv hr
                omega
            | succ fuel' =>
                have hpos := retryLoop_pos out fuel' (r + 1)
                have hinv2 : (r + 1) + (fuel' + 1) = maxRetries := by omega
                rw [ih (r + 1) hinv2]
                have hsub : (retryLoop out (r + 1) (fuel' + 1)).1 + 1 - 1
                    = ((retryLoop out (r + 1) (fuel' + 1)).1 - 1) + 1 := by omega
                rw [hsub, List.range_succ_eq_map, List.map_cons, List.map_map]
                have hfun : ((fun j => 100 * (r + j + 1)) ∘ Nat.succ)
                    = (fun j => 100 * (r + 1 + j + 1)) := by
                  funext j
                  simp only [Function.comp]
                  omega
                rw [hfun]

theorem retryLoop_first_err {out : Nat → Option JsErr} (e : JsErr)
    (h : out 0 = some e) : 2 ≤ (retryLoop out 0 maxRetries).1 := by
  show 2 ≤ (retryLoop out 0 (2 + 1)).1
  simp only [retryLoop, h]
  split
  · rename_i hx
    exact absurd hx (by decide)
  · exact Nat.succ_le_succ (retryLoop_pos out 1 1)

/-- C7 (counterexample to the claim as stated): a QuotaExceeded failure on
an individual fragment write IS retried — the catch clause of the retry
loop inspects no error class.  The claim would force at most one attempt
when the first outcome is QuotaExceeded; with every attempt failing with
QuotaExceeded the loop makes 3 attempts. -/
theorem fragAttempt_quota_retried :
    ¬ (∀ out : Nat → Option JsErr,
        out 0 = some JsErr.quotaExceeded → (fragAttempt out).1 ≤ 1) :=
  fun h => absurd (h (fun _ => some JsErr.quotaExceeded) rfl) (by decide)

/-- C7 (amended): each fragment operation is attempted at most 3 times,
the backoff delays slept between attempts are exactly 100ms times the
attempt number (100, 200, ...), and ANY failure of a non-final attempt —
including QuotaExceeded — triggers a retry; the loop never inspects the
error class. -/
theorem fragAttempt_spec (out : Nat → Option JsErr) :
    (fragAttempt out).1 ≤ maxRetries
    ∧ (fragAttempt out).2.1
        = (List.range ((fragAttempt out).1 - 1)).map (fun j => 100 * (j + 1))
    ∧ (∀ e : JsErr, out 0 = some e → 2 ≤ (fragAttempt out).1) := by
  refine ⟨retryLoop_le maxRetries 0, ?_, fun e he => retryLoop_first_err e he⟩
  have := retryLoop_delays out maxRetries 0 (Nat.zero_add _)
  simpa using this

/-- Witness for C7 (amended) at an always-transient outcome sequence. -/
theorem fragAttempt_spec_witness :
    (fragAttempt (fun _ => some JsErr.transient)).1 ≤ maxRetries
    ∧ (fragAttempt (fun _ => some JsErr.transient)).2.1
        = (List.range ((fragAttempt (fun _ => some JsErr.transient)).1 - 1)).map
            (fun j => 100 * (j + 1))
    ∧ 2 ≤ (fragAttempt (fun _ => some JsErr.transient)).1 :=
  ⟨(fragAttempt_spec _).1, (fragAttempt_spec _).2.1,
   (fragAttempt_spec (fun _ => some JsErr.transient)).2.2 JsErr.transient rfl⟩

/-- C9 (counterexample to the claim as stated): a later saveWithChunking
of the same logical key does not use fresh fragment keys — both saves of
key "k" derive the identical fragment key "chunk_k_0". -/
theorem saveWithChunking_keys_not_fresh :
    ¬ (∀ (key : String) (s₁ s₂ : List Char), s₁ ≠ [] → s₂ ≠ [] →
        ∀ k ∈ saveWithChunkingChunkKeys key s₁, k ∉ saveWithChunkingChunkKeys key s₂) :=
  fun h =>
    h "k" "a".data "b".data (by decide) (by decide) "chunk_k_0" (by decide) (by decide)

theorem getD_map_range (n i : Nat) (f : Nat → String) (h : i < n) :
    ((List.range n).map f).getD i "" = f i := by
  rw [List.getD_eq_getElem?_getD, List.getElem?_map, List.getElem?_range h]
  rfl

/-- C9 (amended): fragment keys are derived deterministically as
chunk_(key)_(index), so a later Save of the same logical key writes its
fragments under the SAME keys as the prior committed version for every
shared index (overwriting those fragments in place rather than using
fresh keys), and the metadata at the logical key is fully superseded by
the later write; prior fragments beyond the new chunk count are the ones
left as orphans for GC. -/
theorem saveWithChunking_reuses_keys (key : String) (s₁ s₂ : List Char) (ts₁ ts₂ : Nat)
    (st : Store SVal) (i : Nat)
    (h₁ : i < (splitIntoChunks chunkSizeB s₁).length)
    (h₂ : i < (splitIntoChunks chunkSizeB s₂).length) :
    (saveWithChunkingChunkKeys key s₁).getD i ""
      = (saveWithChunkingChunkKeys key s₂).getD i ""
    ∧ applyWrites (applyWrites st (saveWithChunkingWrites key s₁ ts₁))
        (saveWithChunkingWrites key s₂ ts₂) key
      = some (SVal.cmeta (splitIntoChunks chunkSizeB s₂).length
          (saveWithChunkingChunkKeys key s₂) ts₂) := by
  constructor
  · unfold saveWithChunkingChunkKeys
    rw [getD_map_range _ i _ h₁, getD_map_range _ i _ h₂]
  · unfold saveWithChunkingWrites
    rw [applyWrites_append]
    show setK _ key _ key = _
    exact setK_self _ key _

/-- Witness for C9 (amended) at key "k", one-fragment saves, index 0. -/
theorem saveWithChunking_reuses_keys_witness :
    (0 < (splitIntoChunks chunkSizeB "a".data).length
     ∧ 0 < (splitIntoChunks chunkSizeB "b".data).length)
    ∧ ((saveWithChunkingChunkKeys "k" "a".data).getD 0 ""
        = (saveWithChunkingChunkKeys "k" "b".data).getD 0 ""
       ∧ applyWrites (applyWrites emptyStore (saveWithChunkingWrites "k" "a".data 1))
           (saveWithChunkingWrites "k" "b".data 2) "k"
         = some (SVal.cmeta (splitIntoChunks chunkSizeB "b".data).length
             (saveWithChunkingChunkKeys "k" "b".data) 2)) :=
  ⟨⟨by decide, by decide⟩,
   saveWithChunking_reuses_keys "k" "a".data "b".data 1 2 emptyStore 0
     (by decide) (by decide)⟩

/-- C10 (counterexample to the claim as stated): the two getMainDomain
implementations disagree on "www.example.co.in" — utils.js keeps three
labels ("example.co.in") because its special-TLD list contains "co.in",
background.js keeps two ("co.in") because its list does not. -/
theorem getMainDomain_disagree :
    ¬ (∀ d : String, getMainDomainU d = getMainDomainB d) :=
  fun h => absurd (h "www.example.co.in") (by decide)

/-- C10 (amended): the two getMainDomain implementations agree on every
domain whose last two dot-separated labels are not "co.in" (in
particular on every domain with at most two labels); they differ exactly
on *.co.in domains with more than two labels, "co.in" being in the
special-TLD list of src/utils.js but not in that of src/background.js. -/
theorem getMainDomain_agree (d : String)
    (h : String.intercalate "."
        ((jsSplit '.' d).drop ((jsSplit '.' d).length - 2)) ≠ "co.in") :
    getMainDomainU d = getMainDomainB d := by
  unfold getMainDomainU getMainDomainB
  by_cases hlen : (jsSplit '.' d).length ≤ 2
  · simp [hlen]
  · simp only [if_neg hlen]
    have hco : (String.intercalate "."
        ((jsSplit '.' d).drop ((jsSplit '.' d).length - 2)) == "co.in") = false := by
      simpa using h
    simp only [specialTldsU, specialTldsB, List.contains_cons, hco,
      List.contains_nil, Bool.or_false]

/-- Witness for C10 (amended) at "mail.google.com". -/
theorem getMainDomain_agree_witness :
    (String.intercalate "."
        ((jsSplit '.' "mail.google.com").drop
          ((jsSplit '.' "mail.google.com").length - 2)) ≠ "co.in")
    ∧ getMainDomainU "mail.google.com" = getMainDomainB "mail.google.com" :=
  ⟨by decide, getMainDomain_agree "mail.google.com" (by decide)⟩

/-- C8 (evaluation at the failing input): the effective saveProfileState
(the second declaration, src/background.js:1026, which shadows the one at
line 551) reports success for the save of profile "u" on "ex.com" with
one retained cookie, even though the verification read defined at
src/background.js:976-1009 fails on the resulting sync store (the small
compressed profile was written to local storage only, so the sync
read-back finds nothing).  No verification read happens on the success
path at all, so a mismatch can never turn the result into a failure. -/
theorem saveProfileState2_no_verification :
    (saveProfileState2 emptyStore emptyStore "u" "ex.com" "c".data "d".data [] 0).1 = true
    ∧ verifySaveSuccess
        (saveProfileState2 emptyStore emptyStore "u" "ex.com" "c".data "d".data [] 0).2.1
        "u" "ex.com" ⟨1, false⟩ = false :=
  ⟨by decide, by decide⟩

theorem strStarts_chunk_profile (k : String) :
    strStarts k "chunk_" = true → strStarts k "profile_" = true → False := by
  intro h1 h2
  rw [strStarts, List.isPrefixOf_iff_prefix] at h1 h2
  rcases h1 with ⟨t1, ht1⟩
  rcases h2 with ⟨t2, ht2⟩
  rw [← ht1] at ht2
  simp at ht2

theorem mem_getD_isSome {k : String} {o : Option (List String)}
    (h : k ∈ o.getD []) : o.isSome = true := by
  cases o with
  | none => simp at h
  | some l => rfl

/-- C5 (counterexample to the claim as stated): over an arbitrary store
state the sweep CAN delete a fragment referenced by a surviving metadata
entry — when the fragment key is shared with an expired profile, pass 1
removes it on behalf of the expired profile even though a live profile
still references it.  In c5Store, profile_new_a.com survives the sweep
and references chunk_shared_0, yet chunk_shared_0 is deleted. -/
theorem cleanup_deletes_shared_live_fragment :
    ¬ (∀ (st : CStore) (now : Nat) (k : String),
        (∃ kv ∈ st, strStarts kv.1 "profile_" = true
          ∧ kv.1 ∉ cleanupToRemove st now
          ∧ k ∈ kv.2.chunkKeys.getD []) →
        k ∉ cleanupToRemove st now) := by
  intro h
  exact h c5Store c5Now "chunk_shared_0"
    ⟨("profile_new_a.com", ⟨some (maxAgeMs + 2), true, some ["chunk_shared_0"]⟩),
      by decide, by decide, by decide, by decide⟩
    (by decide)

/-- C5 (amended): under the no-sharing invariant — the fragment key is
not referenced by any expired profile entry — the sweep never deletes a
fragment key referenced by a live (non-expired) profile entry. -/
theorem cleanup_keeps_unshared_live_fragment (st : CStore) (now : Nat) (k : String)
    (hk : strStarts k "chunk_" = true)
    (href : ∃ kv ∈ st, strStarts kv.1 "profile_" = true
      ∧ isExpired now kv.2 = false ∧ k ∈ kv.2.chunkKeys.getD [])
    (hnoshare : ∀ kv ∈ st, strStarts kv.1 "profile_" = true →
      isExpired now kv.2 = true → k ∉ kv.2.chunkKeys.getD []) :
    k ∉ cleanupToRemove st now := by
  intro hmem
  rcases List.mem_append.mp hmem with hmem | hmem
  · rcases List.mem_flatMap.mp hmem with ⟨kv, hkv, hin⟩
    by_cases hcond : (strStarts kv.1 "profile_" && isExpired now kv.2) = true
    · rw [if_pos hcond] at hin
      rw [Bool.and_eq_true] at hcond
      rcases hcond with ⟨hprof, hexp⟩
      rcases List.mem_cons.mp hin with hin | hin
      · subst hin
        exact strStarts_chunk_profile kv.1 hk hprof
      · by_cases hgate : (kv.2.isChunked && kv.2.chunkKeys.isSome) = true
        · rw [if_pos hgate] at hin
          exact hnoshare kv hkv hprof hexp hin
        · rw [if_neg hgate] at hin
          simp at hin
    · rw [if_neg hcond] at hin
      simp at hin
  · rcases List.mem_filterMap.mp hmem with ⟨kv, hkv, hsome⟩
    by_cases hcond : (strStarts kv.1 "chunk_" && !(referencedByAnyProfile st kv.1)) = true
    · rw [if_pos hcond] at hsome
      have hkk : kv.1 = k := Option.some.inj hsome
      subst hkk
      rw [Bool.and_eq_true] at hcond
      rcases hcond with ⟨_, hnref⟩
      rcases href with ⟨kvr, hkvr, hpr, _, hinr⟩
      have : referencedByAnyProfile st kv.1 = true := by
        apply List.any_eq_true.mpr
        refine ⟨kvr, hkvr, ?_⟩
        rw [hpr, Bool.true_and]
        simpa using hinr
      rw [this] at hnref
      simp at hnref
    · rw [if_neg hcond] at hsome
      exact Option.noConfusion hsome

/-- Witness for C5 (amended): a live profile referencing its own fragment
with no sharing; the sweep keeps the fragment. -/
theorem cleanup_keeps_unshared_live_fragment_witness :
    (strStarts "chunk_live_0" "chunk_" = true
     ∧ (∃ kv ∈ c5LiveStore, strStarts kv.1 "profile_" = true
         ∧ isExpired c5Now kv.2 = false ∧ "chunk_live_0" ∈ kv.2.chunkKeys.getD [])
     ∧ (∀ kv ∈ c5LiveStore, strStarts kv.1 "profile_" = true →
         isExpired c5Now kv.2 = true → "chunk_live_0" ∉ kv.2.chunkKeys.getD []))
    ∧ "chunk_live_0" ∉ cleanupToRemove c5LiveStore c5Now :=
  ⟨⟨by decide, by decide, by decide⟩,
   cleanup_keeps_unshared_live_fragment c5LiveStore c5Now "chunk_live_0"
     (by decide) (by decide) (by decide)⟩

/-- C6: over every snapshot satisfying the writer-maintained shape
invariants — a profile entry carrying a chunkKeys array has isChunked set
(hA), and every key listed in a chunkKeys array is Fragment-shaped (hB) —
one retention sweep removes exactly: every profile record whose
lastAccessed predates the 30-day threshold together with all Fragment
keys its metadata references, plus every Fragment-shaped key of the
snapshot not referenced by any surviving (non-expired) profile entry's
chunkKeys.  In particular orphans created by the eviction pass itself are
removed in the same cycle. -/
theorem cleanup_deletes_exactly (st : CStore) (now : Nat) (k : String)
    (hA : ∀ kv ∈ st, strStarts kv.1 "profile_" = true →
        kv.2.chunkKeys.isSome = true → kv.2.isChunked = true)
    (hB : ∀ kv ∈ st, strStarts kv.1 "profile_" = true →
        ∀ c ∈ kv.2.chunkKeys.getD [], strStarts c "chunk_" = true) :
    k ∈ cleanupToRemove st now ↔ claimDeleted st now k = true := by
  unfold cleanupToRemove claimDeleted
  rw [Bool.or_eq_true]
  constructor
  · intro hmem
    rcases List.mem_append.mp hmem with hmem | hmem
    · rcases List.mem_flatMap.mp hmem with ⟨kv, hkv, hin⟩
      by_cases hcond : (strStarts kv.1 "profile_" && isExpired now kv.2) = true
      · rw [if_pos hcond] at hin
        have hE : evictedEntry now kv = true := hcond
        have hprof : strStarts kv.1 "profile_" = true :=
          (Bool.and_eq_true _ _ ▸ hcond).1
        left
        apply List.any_eq_true.mpr
        refine ⟨kv, hkv, ?_⟩
        rw [Bool.and_eq_true]
        refine ⟨hE, ?_⟩
        rw [Bool.or_eq_true]
        rcases List.mem_cons.mp hin with hin | hin
        · left
          exact beq_iff_eq.mpr hin.symm
        · right
          by_cases hgate : (kv.2.isChunked && kv.2.chunkKeys.isSome) = true
          · rw [if_pos hgate] at hin
            rw [Bool.and_eq_true]
            refine ⟨hB kv hkv hprof k hin, ?_⟩
            simpa using hin
          · rw [if_neg hgate] at hin
            simp at hin
      · rw [if_neg hcond] at hin
        simp at hin
    · rcases List.mem_filterMap.mp hmem with ⟨kv, hkv, hsome⟩
      by_cases hcond : (strStarts kv.1 "chunk_" && !(referencedByAnyProfile st kv.1)) = true
      · rw [if_pos hcond] at hsome
        have hkk : kv.1 = k := Option.some.inj hsome
        subst hkk
        have hchunk : strStarts kv.1 "chunk_" = true := by
          have hc := hcond
          rw [Bool.and_eq_true] at hc
          exact hc.1
        have hrf : referencedByAnyProfile st kv.1 = false := by
          have hc := hcond
          rw [Bool.and_eq_true] at hc
          simpa using hc.2
        right
        rw [Bool.and_eq_true, Bool.and_eq_true]
        refine ⟨⟨List.any_eq_true.mpr ⟨kv, hkv, beq_iff_eq.mpr rfl⟩, hchunk⟩, ?_⟩
        have hsurv : (st.any fun kvp => strStarts kvp.1 "profile_" && !(isExpired now kvp.2) &&
            (kvp.2.chunkKeys.getD []).contains kv.1) = false := by
          cases hb : st.any (fun kvp => strStarts kvp.1 "profile_" && !(isExpired now kvp.2) &&
              (kvp.2.chunkKeys.getD []).contains kv.1) with
          | false => rfl
          | true =>
              exfalso
              rcases List.any_eq_true.mp hb with ⟨kvp, hkvp, hbp⟩
              rw [Bool.and_eq_true, Bool.and_eq_true] at hbp
              have hr2 : referencedByAnyProfile st kv.1 = true :=
                List.any_eq_true.mpr ⟨kvp, hkvp, by
                  rw [Bool.and_eq_true]
                  exact ⟨hbp.1.1, hbp.2⟩⟩
              rw [hr2] at hrf
              exact Bool.noConfusion hrf
        rw [hsurv]
        rfl
      · rw [if_neg hcond] at hsome
        exact Option.noConfusion hsome
  · intro hcl
    rcases hcl with hcl | hcl
    · rcases List.any_eq_true.mp hcl with ⟨kv, hkv, hb⟩
      rw [Bool.and_eq_true] at hb
      rcases hb with ⟨hE, hor⟩
      have hEc : (strStarts kv.1 "profile_" && isExpired now kv.2) = true := hE
      rw [Bool.or_eq_true] at hor
      apply List.mem_append.mpr
      left
      apply List.mem_flatMap.mpr
      refine ⟨kv, hkv, ?_⟩
      rw [if_pos hEc]
      rcases hor with hor | hor
      · exact List.mem_cons.mpr (Or.inl (beq_iff_eq.mp hor).symm)
      · rw [Bool.and_eq_true] at hor
        have hin : k ∈ kv.2.chunkKeys.getD [] := by
          simpa using hor.2
        have hprof : strStarts kv.1 "profile_" = true :=
          (Bool.and_eq_true _ _ ▸ hEc).1
        have hgate : (kv.2.isChunked && kv.2.chunkKeys.isSome) = true := by
          rw [Bool.and_eq_true]
          have hsome := mem_getD_isSome hin
          exact ⟨hA kv hkv hprof hsome, hsome⟩
        apply List.mem_cons.mpr
        right
        rw [if_pos hgate]
        exact hin
    · rw [Bool.and_eq_true, Bool.and_eq_true] at hcl
      rcases hcl with ⟨⟨hself, hchunk⟩, hnosurv⟩
      rcases List.any_eq_true.mp hself with ⟨kv, hkv, hbeq⟩
      have hkk : kv.1 = k := beq_iff_eq.mp hbeq
      by_cases href : referencedByAnyProfile st k = true
      · rcases List.any_eq_true.mp href with ⟨kvp, hkvp, hb⟩
        rw [Bool.and_eq_true] at hb
        rcases hb with ⟨hprofp, hcontp⟩
        have hinp : k ∈ kvp.2.chunkKeys.getD [] := by
          simpa using hcontp
        have hexp : isExpired now kvp.2 = true := by
          cases hx : isExpired now kvp.2 with
          | true => rfl
          | false =>
              exfalso
              have hany : st.any (fun kvq => strStarts kvq.1 "profile_" &&
                  !(isExpired now kvq.2) && (kvq.2.chunkKeys.getD []).contains k) = true :=
                List.any_eq_true.mpr ⟨kvp, hkvp, by
                  rw [Bool.and_eq_true, Bool.and_eq_true]
                  exact ⟨⟨hprofp, by rw [hx]; rfl⟩, hcontp⟩⟩
              rw [hany] at hnosurv
              simp at hnosurv
        apply List.mem_append.mpr
        left
        apply List.mem_flatMap.mpr
        refine ⟨kvp, hkvp, ?_⟩
        have hEc : (strStarts kvp.1 "profile_" && isExpired now kvp.2) = true := by
          rw [Bool.and_eq_true]
          exact ⟨hprofp, hexp⟩
        rw [if_pos hEc]
        apply List.mem_cons.mpr
        right
        have hgate : (kvp.2.isChunked && kvp.2.chunkKeys.isSome) = true := by
          rw [Bool.and_eq_true]
          have hsome := mem_getD_isSome hinp
          exact ⟨hA kvp hkvp hprofp hsome, hsome⟩
        rw [if_pos hgate]
        exact hinp
      · have hreff : referencedByAnyProfile st k = false := by
          cases hx : referencedByAnyProfile st k with
          | false => rfl
          | true => exact absurd hx href
        apply List.mem_append.mpr
        right
        apply List.mem_filterMap.mpr
        refine ⟨kv, hkv, ?_⟩
        have hcond : (strStarts kv.1 "chunk_" && !(referencedByAnyProfile st kv.1)) = true := by
          rw [Bool.and_eq_true, hkk]
          exact ⟨hchunk, by rw [hreff]; rfl⟩
        rw [if_pos hcond, hkk]

/-- Witness for C6 at the c5Store snapshot: the sweep's removal of
chunk_shared_0 matches the claim's description (it is referenced by the
expired profile_old_a.com). -/
theorem cleanup_deletes_exactly_witness :
    ((∀ kv ∈ c5Store, strStarts kv.1 "profile_" = true →
        kv.2.chunkKeys.isSome = true → kv.2.isChunked = true)
     ∧ (∀ kv ∈ c5Store, strStarts kv.1 "profile_" = true →
        ∀ c ∈ kv.2.chunkKeys.getD [], strStarts c "chunk_" = true))
    ∧ ("chunk_shared_0" ∈ cleanupToRemove c5Store c5Now
        ↔ claimDeleted c5Store c5Now "chunk_shared_0" = true) :=
  ⟨⟨by decide, by decide⟩,
   cleanup_deletes_exactly c5Store c5Now "chunk_shared_0" (by decide) (by decide)⟩

theorem byteList_threeStep {P : List Nat → Prop} (h0 : P []) (h1 : ∀ a, P [a])
    (h2 : ∀ a b, P [a, b]) (h3 : ∀ a b d rest, P rest → P (a :: b :: d :: rest)) :
    ∀ l, P l
  | [] => h0
  | [a] => h1 a
  | [a, b] => h2 a b
  | a :: b :: d :: rest => h3 a b d rest (byteList_threeStep h0 h1 h2 h3 rest)

theorem charIdx_b64Char : ∀ n, n < 64 → charIdx (b64Char n) = n := by decide

theorem b64Char_ne_pad : ∀ n, n < 64 → b64Char n ≠ '=' := by decide

theorem sixToBytes_two (s1 s2 : Nat) : sixToBytes [s1, s2] = [s1 * 4 + s2 / 16] := rfl

theorem sixToBytes_three (s1 s2 s3 : Nat) :
    sixToBytes [s1, s2, s3] = [s1 * 4 + s2 / 16, s2 % 16 * 16 + s3 / 4] := rfl

theorem sixToBytes_four (s1 s2 s3 s4 : Nat) (rest : List Nat) :
    sixToBytes (s1 :: s2 :: s3 :: s4 :: rest)
      = (s1 * 4 + s2 / 16) :: (s2 % 16 * 16 + s3 / 4) :: (s3 % 4 * 64 + s4)
        :: sixToBytes rest := rfl

theorem encodeB64_cons (a b d : Nat) (rest : List Nat) :
    encodeB64 (a :: b :: d :: rest)
      = b64Char (a / 4) :: b64Char (a % 4 * 16 + b / 16) ::
        b64Char (b % 16 * 4 + d / 64) :: b64Char (d % 64) :: encodeB64 rest := rfl

theorem decodeB64_encodeB64 :
    ∀ l : List Nat, (∀ b ∈ l, b < 256) → decodeB64 (encodeB64 l) = l := by
  intro l
  induction l using byteList_threeStep with
  | h0 => intro _; rfl
  | h1 a =>
      intro hb
      have ha : a < 256 := hb a (by simp)
      have hlt1 : a / 4 < 64 := by omega
      have hlt2 : a % 4 * 16 < 64 := by omega
      have e1 : (b64Char (a / 4) != '=') = true := bne_iff_ne.mpr (b64Char_ne_pad _ hlt1)
      have e2 : (b64Char (a % 4 * 16) != '=') = true := bne_iff_ne.mpr (b64Char_ne_pad _ hlt2)
      show decodeB64 [b64Char (a / 4), b64Char (a % 4 * 16), '=', '='] = [a]
      simp only [decodeB64, List.filter_cons, e1, e2, if_true]
      norm_num
      rw [charIdx_b64Char _ hlt1, charIdx_b64Char _ hlt2, sixToBytes_two]
      simp only [List.cons.injEq, and_true]
      omega
  | h2 a b =>
      intro hb
      have ha : a < 256 := hb a (by simp)
      have hbb : b < 256 := hb b (by simp)
      have hlt1 : a / 4 < 64 := by omega
      have hlt2 : a % 4 * 16 + b / 16 < 64 := by omega
      have hlt3 : b % 16 * 4 < 64 := by omega
      have e1 : (b64Char (a / 4) != '=') = true := bne_iff_ne.mpr (b64Char_ne_pad _ hlt1)
      have e2 : (b64Char (a % 4 * 16 + b / 16) != '=') = true :=
        bne_iff_ne.mpr (b64Char_ne_pad _ hlt2)
      have e3 : (b64Char (b % 16 * 4) != '=') = true := bne_iff_ne.mpr (b64Char_ne_pad _ hlt3)
      show decodeB64 [b64Char (a / 4), b64Char (a % 4 * 16 + b / 16),
        b64Char (b % 16 * 4), '='] = [a, b]
      simp only [decodeB64, List.filter_cons, e1, e2, e3, if_true]
      norm_num
      rw [charIdx_b64Char _ hlt1, charIdx_b64Char _ hlt2, charIdx_b64Char _ hlt3,
        sixToBytes_three]
      simp only [List.cons.injEq, and_true]
      constructor
      · omega
      · omega
  | h3 a b d rest ih =>
      intro hb
      have ha : a < 256 := hb a (by simp)
      have hbb : b < 256 := hb b (by simp)
      have hd : d < 256 := hb d (by simp)
      have hrest : ∀ x ∈ rest, x < 256 := fun x hx => hb x (by simp [hx])
      have hlt1 : a / 4 < 64 := by omega
      have hlt2 : a % 4 * 16 + b / 16 < 64 := by omega
      have hlt3 : b % 16 * 4 + d / 64 < 64 := by omega
      have hlt4 : d % 64 < 64 := by omega
      have e1 : (b64Char (a / 4) != '=') = true := bne_iff_ne.mpr (b64Char_ne_pad _ hlt1)
      have e2 : (b64Char (a % 4 * 16 + b / 16) != '=') = true :=
        bne_iff_ne.mpr (b64Char_ne_pad _ hlt2)
      have e3 : (b64Char (b % 16 * 4 + d / 64) != '=') = true :=
        bne_iff_ne.mpr (b64Char_ne_pad _ hlt3)
      have e4 : (b64Char (d % 64) != '=') = true := bne_iff_ne.mpr (b64Char_ne_pad _ hlt4)
      rw [encodeB64_cons]
      simp only [decodeB64, List.filter_cons, e1, e2, e3, e4, if_true]
      rw [List.map_cons, List.map_cons, List.map_cons, List.map_cons,
        charIdx_b64Char _ hlt1, charIdx_b64Char _ hlt2, charIdx_b64Char _ hlt3,
        charIdx_b64Char _ hlt4, sixToBytes_four]
      have ihr : sixToBytes (((encodeB64 rest).filter (fun c => c != '=')).map charIdx)
          = rest := ih hrest
      rw [ihr]
      simp only [List.cons.injEq]
      refine ⟨by omega, by omega, by omega, trivial⟩

/-- C4: decompressData inverts compressData on every input, the empty
input included: the repository's base64 glue is lossless on byte values
below 256, and with the LZMA worker and the JSON/TextEncoder layers
satisfying their section 4.1 round-trip contracts (they are external to
src/ and are abstracted as comp/decomp and ser/de), the composed
pipeline returns exactly the saved value. -/
theorem compressData_roundtrip {J : Type} (ser : J → List Nat) (de : List Nat → Option J)
    (comp decomp : List Nat → List Nat)
    (hser : ∀ v, ∀ b ∈ ser v, b < 256)
    (hcomp : ∀ l, (∀ b ∈ l, b < 256) → ∀ b ∈ comp l, b < 256)
    (hlzma : ∀ l, decomp (comp l) = l)
    (hjson : ∀ v, de (ser v) = some v)
    (v : J) :
    decompressData de decomp (compressData ser comp v) = some v := by
  unfold compressData decompressData
  rw [show (String.mk (encodeB64 (comp (ser v)))).data = encodeB64 (comp (ser v)) from rfl]
  rw [decodeB64_encodeB64 (comp (ser v)) (hcomp (ser v) (hser v))]
  rw [hlzma, hjson]

/-- Witness for C4: Boolean payloads serialized to one byte, identity
compressor; both true and the empty-serialization case round-trip. -/
theorem compressData_roundtrip_witness :
    ((∀ v : Bool, ∀ b ∈ (if v then [1] else [0] : List Nat), b < 256)
     ∧ (∀ l : List Nat, decodeB64 (encodeB64 l) = l → True)
     ∧ (∀ v : Bool,
          (if (if v then ([1] : List Nat) else [0]) = [1] then some true
           else if (if v then ([1] : List Nat) else [0]) = [0] then some false
           else none) = some v))
    ∧ decompressData
        (fun l => if l = [1] then some true else if l = [0] then some false else none)
        (fun l => l)
        (compressData (fun v => if v then [1] else [0]) (fun l => l) true) = some true :=
  ⟨⟨by decide, fun _ _ => trivial, by decide⟩,
   compressData_roundtrip (fun v => if v then [1] else [0])
     (fun l => if l = [1] then some true else if l = [0] then some false else none)
     (fun l => l) (fun l => l)
     (by decide) (fun _ h => h) (fun _ => rfl) (by decide) true⟩

end SessionSync

